import Mathlib

/-!
# Verification of `get_data_from_api` (src/main.py)

A shallow embedding of the program's core operations, translated from the
source:

* `retry_request` (src/main.py, lines 15-49): bounded exponential-backoff
  retry over a fallible HTTP GET.  The network is modelled as an oracle
  `Nat → Except Unit Nat` giving, for each attempt index, either a
  connection error (`requests.exceptions.ConnectionError`) or a status
  code.  Sleeping is modelled by recording the slept durations.
* `add_length` (lines 87-101) and `filter_data` (lines 104-121): dict
  records become association lists `List (String × Value)`; Python
  runtime errors (`KeyError`, `TypeError` on `len`/`>=`) become `none`.
* `create_table_if_not_exists` / `upsert_data` (lines 136-201): the
  SQLite database holding the single destination table is modelled as
  `Option Table`; the model covers tables created by this program
  (column list `id, title, body, title_length` as in the hardcoded DDL).
  Python's `sqlite3` module autocommits the `CREATE TABLE` DDL (no
  implicit transaction is opened for DDL), while the `executemany`
  INSERTs run in an implicit transaction that is only made durable by
  `conn.commit()`; an error propagates before the commit, so the pending
  row writes are discarded while the table creation persists.
-/

namespace ApiPipeline

/-- A scalar value stored in a record or a table cell: Python `None`,
`int`, or `str`. -/
inductive Value where
  | null : Value
  | int (n : Int) : Value
  | str (s : String) : Value
deriving DecidableEq, Repr

/-- `len(v)` in Python: defined for strings, a `TypeError` otherwise. -/
def vlen : Value → Option Nat
  | .str s => some s.length
  | _ => none

def Value.isStr : Value → Bool
  | .str _ => true
  | _ => false

def Value.isInt : Value → Bool
  | .int _ => true
  | _ => false

/-- A Python dict record: an association list from field name to value,
in insertion order (Python dicts preserve insertion order). -/
abbrev Record : Type := List (String × Value)

/-- `r[k]` / `r.get(k)`: the value at the first matching key. -/
def lookup (r : Record) (k : String) : Option Value :=
  (r.find? (fun p => p.1 = k)).map (fun p => p.2)

/-- `r[k] = v`: overwrite in place if the key exists (keeping its
position, as Python dicts do), otherwise append the new pair. -/
def dictInsert (r : Record) (k : String) (v : Value) : Record :=
  if r.any (fun p => p.1 = k) then r.map (fun p => if p.1 = k then (k, v) else p)
  else r ++ [(k, v)]

/-- `r.keys()` in insertion order. -/
def recordKeys (r : Record) : List String := r.map (fun p => p.1)

/-- `tuple(r.values())` in insertion order. -/
def recordValues (r : Record) : List Value := r.map (fun p => p.2)

/-! ## Record Transformer (src/main.py, lines 87-121) -/

/-- `add_length(data, key)`: for each record `i` in order, execute
`i[f"{key}_length"] = len(i[key])`.  A missing `key` (Python `KeyError`)
or a value without a length (Python `TypeError`) aborts the whole call,
modelled as `none`. -/
def add_length : List Record → String → Option (List Record)
  | [], _ => some []
  | r :: rs, key => do
    let v ← lookup r key
    let n ← vlen v
    let rest ← add_length rs key
    pure (dictInsert r (key ++ "_length") (.int (n : Int)) :: rest)

/-- `filter_data(data, key, min_length)`: keep the records where
`i.get(key) >= min_length`.  `i.get(key)` yields `None` for a missing
key, and comparing `None` (or a `str`) against an `int` raises
`TypeError`, aborting the whole call: modelled as `none`. -/
def filter_data : List Record → String → Int → Option (List Record)
  | [], _, _ => some []
  | r :: rs, key, min_length =>
    match lookup r key with
    | some (.int n) =>
      if min_length ≤ n then (filter_data rs key min_length).map (fun l => r :: l)
      else filter_data rs key min_length
    | _ => none

/-- The boolean filter criterion realised by `filter_data` on records
whose `key` field holds an integer. -/
def passesMin (key : String) (min_length : Int) (r : Record) : Bool :=
  match lookup r key with
  | some (.int n) => min_length ≤ n
  | _ => false

/-! ## Retrying Fetcher (src/main.py, lines 15-49) -/

/-- Observable outcome of a `retry_request` run: the returned response's
status, the number of requests issued, and the sequence of pauses slept
(in order).  `connError` is the re-raised
`requests.exceptions.ConnectionError`; `nameError` is the unbound
`response` on `return response` when the loop body never ran. -/
inductive FetchOutcome where
  | success (status : Nat) (attempts : Nat) (sleeps : List ℚ) : FetchOutcome
  | exhausted (status : Nat) (attempts : Nat) (sleeps : List ℚ) : FetchOutcome
  | connError (attempts : Nat) (sleeps : List ℚ) : FetchOutcome
  | nameError : FetchOutcome
deriving DecidableEq, Repr

/-- Record one `time.sleep(s)` executed before the rest of the run. -/
def addSleep (s : ℚ) : FetchOutcome → FetchOutcome
  | .success st a sl => .success st a (s :: sl)
  | .exhausted st a sl => .exhausted st a (s :: sl)
  | .connError a sl => .connError a (s :: sl)
  | .nameError => .nameError

/-- The `for _ in range(num_retries)` loop of `retry_request`.  `fuel` is
the number of remaining iterations, `attempts` the number of requests
already issued, `seconds` the current sleep time, and `last` the status
of the most recent response (Python's still-bound `response` variable). -/
def retryLoop (req : Nat → Except Unit Nat) (success_list : List Nat) :
    Nat → Nat → ℚ → Option Nat → FetchOutcome
  | 0, attempts, _, last =>
    match last with
    | some s => .exhausted s attempts []
    | none => .nameError
  | fuel + 1, attempts, seconds, _ =>
    match req attempts with
    | .error _ => .connError (attempts + 1) []
    | .ok st =>
      if st ∈ success_list then .success st (attempts + 1) []
      else addSleep seconds
        (retryLoop req success_list fuel (attempts + 1) (seconds * 2) (some st))

/-- `retry_request(num_retries, success_list, starting_sleep_time, **kwargs)`:
issue up to `num_retries` requests; return the first response whose
status is in `success_list`; otherwise sleep the current delay and
double it; re-raise a connection error immediately; after the loop,
return the last response. -/
def retry_request (num_retries : Nat) (success_list : List Nat)
    (starting_sleep_time : ℚ) (req : Nat → Except Unit Nat) : FetchOutcome :=
  retryLoop req success_list num_retries 0 starting_sleep_time none

/-- The pauses produced by exponential backoff starting at `d`:
`d, 2*d, 4*d, ...` (`n` entries). -/
def sleepSeq (d : ℚ) (n : Nat) : List ℚ :=
  (List.range n).map (fun j => d * 2 ^ j)

/-! ## Upsert Writer (src/main.py, lines 124-201)

The destination table of the single `table_name` the call addresses is
modelled as `Option Table` (`none` = the table does not exist).  The
schema of tables created by the program is the one hardcoded in
`create_table_if_not_exists`:

```
CREATE TABLE IF NOT EXISTS {name}
  (id INT PRIMARY KEY NOT NULL, title VARCHAR NOT NULL,
   body VARCHAR NULL, title_length INT NOT NULL);
```

so the column list is `id, title, body, title_length`, with a unique
primary key on `id` and NOT NULL on `id`, `title`, `title_length`.
Rows are therefore modelled positionally as `Row` with those four
cells.  `INSERT INTO {t} VALUES (?,?,?,?)` aligns a record's values, in
insertion order, with the table's column order. -/

/-- A table row, positional over the created schema
`(id, title, body, title_length)`. -/
structure Row where
  id : Value
  title : Value
  body : Value
  title_length : Value
deriving DecidableEq, Repr

/-- The column list of the table created by `create_table_if_not_exists`
(hardcoded in its DDL, src/main.py lines 145-151). -/
def tableColumns : List String := ["id", "title", "body", "title_length"]

/-- The unique-key column of the created table (`id INT PRIMARY KEY`). -/
def primaryKey : String := "id"

/-- A destination table: its column list (fixed at creation) and rows in
rowid order. -/
structure Table where
  cols : List String
  rows : List Row
deriving DecidableEq, Repr

/-- `CREATE TABLE IF NOT EXISTS`: creates the hardcoded schema when the
table is absent, otherwise leaves the table untouched.  DDL executed
with no transaction open autocommits in Python's `sqlite3`. -/
def create_table_if_not_exists : Option Table → Option Table
  | none => some { cols := tableColumns, rows := [] }
  | some t => some t

/-- The table as it stands right after `create_table_if_not_exists`. -/
def ensuredTable : Option Table → Table
  | none => { cols := tableColumns, rows := [] }
  | some t => t

/-- An `sqlite3.Error` raised while preparing or running the upsert
statement. -/
inductive SqlError where
  /-- `table {t} has N columns but M values were supplied`: the
  placeholder count (from the first record's key count) does not match
  the table's column count. -/
  | prepareArity : SqlError
  /-- `no such column`: the `ON CONFLICT ... DO UPDATE SET` list names a
  column absent from the table. -/
  | noSuchColumn : SqlError
  /-- `ON CONFLICT clause does not match any PRIMARY KEY or UNIQUE
  constraint`: `merge_column` is not the uniquely-indexed column. -/
  | badConflictTarget : SqlError
  /-- `Incorrect number of bindings supplied`: a later record's value
  tuple does not match the placeholder count. -/
  | bindingArity : SqlError
  /-- `NOT NULL constraint failed`. -/
  | notNullViolation : SqlError
deriving DecidableEq, Repr

/-- An error escaping `upsert_data`: the Python `IndexError` raised by
`data[0]` on an empty batch, or a propagated `sqlite3.Error`. -/
inductive DBError where
  | indexError : DBError
  | sql (e : SqlError) : DBError
deriving DecidableEq, Repr

/-- Align a 4-tuple of bound values with the created table's column
order (only reached after the arity checks have passed). -/
def mkRowD (vals : List Value) : Row :=
  { id := vals.getD 0 .null, title := vals.getD 1 .null,
    body := vals.getD 2 .null, title_length := vals.getD 3 .null }

/-- The NOT NULL constraints of the created schema, on the row a
statement would leave in the table. -/
def notNullOk (t : Row) : Bool :=
  t.id ≠ Value.null && t.title ≠ Value.null && t.title_length ≠ Value.null

/-- One `INSERT ... ON CONFLICT(id) DO UPDATE SET ...` applied to the
pending rows.  In every committed run of `upsert_data` the SET list
covers all non-key columns (see `upsert_data`), so a conflicting row is
overwritten with the proposed row; a fresh key is appended in rowid
order. -/
def upsertRow (t : Row) : List Row → List Row
  | [] => [t]
  | u :: us => if u.id = t.id then t :: us else u :: upsertRow t us

/-- All statements of one `executemany`, ignoring the per-row checks. -/
def applyAll (S : List Row) : List Row → List Row
  | [] => S
  | t :: ts => applyAll (upsertRow t S) ts

/-- The per-row checks of one statement execution: binding arity against
the placeholder count (= table column count after a successful prepare)
and the NOT NULL constraints on the resulting row. -/
def rowOk (vals : List Value) : Bool :=
  vals.length == tableColumns.length && notNullOk (mkRowD vals)

/-- `cursor.executemany(upsert_sql, values)`: execute the prepared
statement for each value tuple in order, stopping at the first
`sqlite3.Error`.  On success, the pending rows after all statements. -/
def runRows : List Row → List (List Value) → Except SqlError (List Row)
  | rows, [] => .ok rows
  | rows, vals :: rest =>
    if vals.length ≠ tableColumns.length then .error .bindingArity
    else if notNullOk (mkRowD vals) = false then .error .notNullViolation
    else runRows (upsertRow (mkRowD vals) rows) rest

instance : DecidableEq (Except DBError Unit) := fun a b =>
  match a, b with
  | .ok x, .ok y => .isTrue (by rw [Unit.ext x y])
  | .error e, .error f => if h : e = f then .isTrue (by rw [h]) else .isFalse (by simp [h])
  | .ok _, .error _ => .isFalse (by simp)
  | .error _, .ok _ => .isFalse (by simp)

/-- What a call to `upsert_data` did: the surfaced result, the database
state visible after the call (committed state), and whether the
connection was opened and explicitly closed. -/
structure UpsertOutcome where
  result : Except DBError Unit
  db : Option Table
  connOpened : Bool
  connClosed : Bool
deriving DecidableEq, Repr

/-- `upsert_data(data, table_name, merge_column)` (src/main.py lines
157-201).  `data[0].keys()` runs before the `try` block, so an empty
batch raises `IndexError` before any connection is opened.  Otherwise
the connection is opened, the table is created if absent (DDL,
autocommitted), the upsert statement is prepared from the first
record's keys, and `executemany` runs over all value tuples; only on
full success are the row writes committed and the connection closed —
the `except sqlite3.Error` branch re-raises without closing, and the
uncommitted row writes are discarded when the abandoned connection is
eventually collected. -/
def upsert_data (db : Option Table) (data : List Record) (merge_column : String) :
    UpsertOutcome :=
  match data with
  | [] => { result := .error .indexError, db := db, connOpened := false, connClosed := false }
  | first :: _ =>
    let columns := recordKeys first
    let set_cols := columns.filter (fun c => c ≠ merge_column)
    let t := ensuredTable db
    if columns.length ≠ t.cols.length then
      { result := .error (.sql .prepareArity), db := some t, connOpened := true, connClosed := false }
    else if (set_cols.all (fun c => t.cols.contains c)) = false then
      { result := .error (.sql .noSuchColumn), db := some t, connOpened := true, connClosed := false }
    else if merge_column ≠ primaryKey then
      { result := .error (.sql .badConflictTarget), db := some t, connOpened := true, connClosed := false }
    else
      match runRows t.rows (data.map recordValues) with
      | .error e =>
        { result := .error (.sql e), db := some t, connOpened := true, connClosed := false }
      | .ok finalRows =>
        { result := .ok (), db := some { t with rows := finalRows },
          connOpened := true, connClosed := true }

/-- The key (`id`) column of each row, in rowid order. -/
def ids (S : List Row) : List Value := S.map Row.id

/-- `some` of the last element of `rs` whose key is `v`, if any. -/
def lastRec : List Row → Value → Option Row
  | [], _ => none
  | t :: ts, v =>
    match lastRec ts v with
    | some w => some w
    | none => if t.id = v then some t else none

/-- Replace a row by the last same-key row of `rs`, if there is one. -/
def lastPatch (rs : List Row) (u : Row) : Row :=
  (lastRec rs u.id).getD u

/-- The rows a run of statements appends (keys not among `vs`), in
first-occurrence order, each carrying its last-occurrence value. -/
def newRows : List Row → List Value → List Row
  | [], _ => []
  | t :: rest, vs =>
    if t.id ∈ vs then newRows rest vs
    else lastPatch rest t :: newRows rest (t.id :: vs)

/-- The primary-key uniqueness invariant SQLite maintains on the `id`
column of the destination table. -/
def keyUnique : Option Table → Prop
  | none => True
  | some t => (ids t.rows).Nodup

/-! ## Lemmas about the Retrying Fetcher -/

theorem sleepSeq_zero (d : ℚ) : sleepSeq d 0 = [] := rfl

theorem sleepSeq_succ (d : ℚ) (n : Nat) :
    sleepSeq d (n + 1) = d :: sleepSeq (d * 2) n := by
  unfold sleepSeq
  rw [List.range_succ_eq_map, List.map_cons, List.map_map]
  refine congrArg₂ List.cons (by simp) ?_
  refine List.map_congr_left ?_
  intro j _
  simp only [Function.comp_apply, Nat.succ_eq_add_one, pow_succ]
  ring

theorem retryLoop_zero (req : Nat → Except Unit Nat) (succ : List Nat)
    (attempts : Nat) (seconds : ℚ) (last : Option Nat) :
    retryLoop req succ 0 attempts seconds last =
      match last with
      | some s => .exhausted s attempts []
      | none => .nameError := rfl

theorem retryLoop_step (req : Nat → Except Unit Nat) (succ : List Nat)
    (fuel attempts : Nat) (seconds : ℚ) (last : Option Nat) :
    retryLoop req succ (fuel + 1) attempts seconds last =
      match req attempts with
      | .error _ => .connError (attempts + 1) []
      | .ok st =>
        if st ∈ succ then .success st (attempts + 1) []
        else addSleep seconds
          (retryLoop req succ fuel (attempts + 1) (seconds * 2) (some st)) := rfl

theorem retryLoop_exhausts (status : Nat → Nat) (succ : List Nat) :
    ∀ fuel i sec last, 1 ≤ fuel → (∀ j, j < fuel → status (i + j) ∉ succ) →
    retryLoop (fun a => .ok (status a)) succ fuel i sec last =
      .exhausted (status (i + fuel - 1)) (i + fuel) (sleepSeq sec fuel) := by
  intro fuel
  induction fuel with
  | zero => intro i sec last h; exact absurd h (by omega)
  | succ f ih =>
    intro i sec last _ hall
    have h0 : status i ∉ succ := by simpa using hall 0 (by omega)
    rw [retryLoop_step]
    simp only [if_neg h0]
    cases f with
    | zero =>
      rw [retryLoop_zero]
      simp only [addSleep, sleepSeq_succ, sleepSeq_zero]
      simp
    | succ g =>
      have hrest : ∀ j, j < g + 1 → status (i + 1 + j) ∉ succ := by
        intro j hj
        have := hall (j + 1) (by omega)
        simpa [Nat.add_assoc, Nat.add_comm 1 j] using this
      rw [ih (i + 1) (sec * 2) (some (status i)) (by omega) hrest]
      simp only [addSleep, sleepSeq_succ]
      have e1 : i + 1 + (g + 1) - 1 = i + (g + 1 + 1) - 1 := by omega
      have e2 : i + 1 + (g + 1) = i + (g + 1 + 1) := by omega
      rw [e1, e2]

theorem retryLoop_success (status : Nat → Nat) (succ : List Nat) :
    ∀ k fuel i sec last, k < fuel → (∀ j, j < k → status (i + j) ∉ succ) →
    status (i + k) ∈ succ →
    retryLoop (fun a => .ok (status a)) succ fuel i sec last =
      .success (status (i + k)) (i + k + 1) (sleepSeq sec k) := by
  intro k
  induction k with
  | zero =>
    intro fuel i sec last hk _ hs
    cases fuel with
    | zero => exact absurd hk (by omega)
    | succ f =>
      simp only [Nat.add_zero] at hs
      rw [retryLoop_step]
      simp only [if_pos hs, sleepSeq_zero, Nat.add_zero]
  | succ k ih =>
    intro fuel i sec last hk hbefore hs
    cases fuel with
    | zero => exact absurd hk (by omega)
    | succ f =>
      have h0 : status i ∉ succ := by simpa using hbefore 0 (by omega)
      have hrest : ∀ j, j < k → status (i + 1 + j) ∉ succ := by
        intro j hj
        have := hbefore (j + 1) (by omega)
        simpa [Nat.add_assoc, Nat.add_comm 1 j] using this
      have hs' : status (i + 1 + k) ∈ succ := by
        have e : i + 1 + k = i + (k + 1) := by omega
        rw [e]; exact hs
      rw [retryLoop_step]
      simp only [if_neg h0]
      rw [ih f (i + 1) (sec * 2) (some (status i)) (by omega) hrest hs']
      simp only [addSleep, sleepSeq_succ]
      have e1 : i + 1 + k = i + (k + 1) := by omega
      rw [e1]

theorem retryLoop_connError (req : Nat → Except Unit Nat) (succ : List Nat) :
    ∀ k fuel i sec last, k < fuel →
    (∀ j, j < k → ∃ s, req (i + j) = .ok s ∧ s ∉ succ) →
    req (i + k) = .error () →
    retryLoop req succ fuel i sec last = .connError (i + k + 1) (sleepSeq sec k) := by
  intro k
  induction k with
  | zero =>
    intro fuel i sec last hk _ herr
    cases fuel with
    | zero => exact absurd hk (by omega)
    | succ f =>
      simp only [Nat.add_zero] at herr
      rw [retryLoop_step, herr]
      simp only [sleepSeq_zero]
  | succ k ih =>
    intro fuel i sec last hk hbefore herr
    cases fuel with
    | zero => exact absurd hk (by omega)
    | succ f =>
      obtain ⟨s0, hs0, hs0n⟩ := by simpa using hbefore 0 (by omega)
      have hrest : ∀ j, j < k → ∃ s, req (i + 1 + j) = .ok s ∧ s ∉ succ := by
        intro j hj
        have := hbefore (j + 1) (by omega)
        simpa [Nat.add_assoc, Nat.add_comm 1 j] using this
      have herr' : req (i + 1 + k) = .error () := by
        have e : i + 1 + k = i + (k + 1) := by omega
        rw [e]; exact herr
      rw [retryLoop_step, hs0]
      simp only [if_neg hs0n]
      rw [ih f (i + 1) (sec * 2) (some s0) (by omega) hrest herr']
      simp only [addSleep, sleepSeq_succ]
      have e1 : i + 1 + k = i + (k + 1) := by omega
      rw [e1]

/-- **C1.** For every call
`fetch(request_params, max_attempts, success_codes, initial_delay)` with
`max_attempts >= 1`, the fetcher loops at most `max_attempts` times,
each iteration issuing one request; the first response whose status is
in `success_codes` is returned immediately, after `k + 1 <= max_attempts`
requests and with no delay after it (only the `k` pauses before it);
after every non-success response it pauses for the current delay and
then doubles it, so the pauses last
`initial_delay, 2*initial_delay, 4*initial_delay, ...`; and if every one
of the `max_attempts` responses has a non-success status, exactly
`max_attempts` attempts are made and the last-received unsuccessful
response is returned without raising. -/
theorem retry_request_backoff_spec (status : Nat → Nat) (succ : List Nat)
    (d : ℚ) (n : Nat) (hn : 1 ≤ n) :
    ((∀ i, i < n → status i ∉ succ) →
      retry_request n succ d (fun a => .ok (status a)) =
        .exhausted (status (n - 1)) n (sleepSeq d n)) ∧
    (∀ k, k < n → (∀ i, i < k → status i ∉ succ) → status k ∈ succ →
      retry_request n succ d (fun a => .ok (status a)) =
        .success (status k) (k + 1) (sleepSeq d k)) := by
  constructor
  · intro h
    have := retryLoop_exhausts status succ n 0 d none hn (by simpa using h)
    simpa [retry_request] using this
  · intro k hk hb hs
    have := retryLoop_success status succ k n 0 d none hk (by simpa using hb)
      (by simpa using hs)
    simpa [retry_request] using this

/-- Witness for C1: three attempts all answering 500 against success set
`{200}` — exactly 3 requests, pauses `1, 2, 4`, the last 500 response
returned. -/
theorem retry_request_backoff_spec_witness :
    retry_request 3 [200] 1 (fun a => .ok ((fun _ => 500) a)) =
      .exhausted ((fun _ => 500) (3 - 1)) 3 (sleepSeq 1 3) :=
  (retry_request_backoff_spec (fun _ => 500) [200] 1 3 (by omega)).1
    (fun i _ => by decide)

/-- **C4.** For every call to fetch, if a connectivity-level failure
occurs on attempt `k` (after `k` non-success responses), the fetcher
aborts immediately: it stops after `k + 1` requests even though
`k + 1 < max_attempts` attempts may remain, and propagates the failure
(`connError`) to the caller — in contrast to a non-success status code,
which is retried (the `hbefore` responses). -/
theorem retry_request_conn_error_aborts (req : Nat → Except Unit Nat)
    (succ : List Nat) (d : ℚ) (n k : Nat) (hk : k < n)
    (hbefore : ∀ j, j < k → ∃ s, req j = .ok s ∧ s ∉ succ)
    (herr : req k = .error ()) :
    retry_request n succ d req = .connError (k + 1) (sleepSeq d k) := by
  have := retryLoop_connError req succ k n 0 d none hk (by simpa using hbefore)
    (by simpa using herr)
  simpa [retry_request] using this

/-- Witness for C4: a connection error on the second of three budgeted
attempts stops the run after 2 requests and one pause. -/
theorem retry_request_conn_error_aborts_witness :
    retry_request 3 [200] 1 (fun a => if a = 1 then .error () else .ok 500) =
      .connError (1 + 1) (sleepSeq 1 1) :=
  retry_request_conn_error_aborts (fun a => if a = 1 then .error () else .ok 500)
    [200] 1 3 1 (by omega)
    (fun j hj => ⟨500, by interval_cases j; simp, by decide⟩)
    (by rfl)

/-! ## Lemmas about the Record Transformer -/

theorem lookup_nil (k : String) : lookup [] k = none := rfl

theorem lookup_cons (p : String × Value) (rs : Record) (k : String) :
    lookup (p :: rs) k = if p.1 = k then some p.2 else lookup rs k := by
  unfold lookup
  rw [List.find?_cons]
  by_cases h : p.1 = k
  · simp [h]
  · simp [h]

theorem key_ne_append_length (s : String) : s ≠ s ++ "_length" := by
  intro h
  have h2 := congrArg String.length h
  have h7 : ("_length" : String).length = 7 := rfl
  rw [String.length_append, h7] at h2
  omega

theorem lookup_map_overwrite (k : String) (v : Value) :
    ∀ r : Record, (∃ p ∈ r, p.1 = k) →
    lookup (r.map (fun p => if p.1 = k then (k, v) else p)) k = some v := by
  intro r
  induction r with
  | nil => intro h; simp at h
  | cons p rs ih =>
    intro h
    by_cases hp : p.1 = k
    · simp [List.map_cons, if_pos hp, lookup_cons]
    · obtain ⟨q, hq, hqk⟩ := h
      rcases List.mem_cons.mp hq with rfl | hq'
      · exact absurd hqk hp
      · simp only [List.map_cons, if_neg hp, lookup_cons, if_neg hp]
        exact ih ⟨q, hq', hqk⟩

theorem lookup_map_overwrite_ne (k k' : String) (v : Value) (hne : k' ≠ k) :
    ∀ r : Record,
    lookup (r.map (fun p => if p.1 = k then (k, v) else p)) k' = lookup r k' := by
  intro r
  induction r with
  | nil => rfl
  | cons p rs ih =>
    by_cases hp : p.1 = k
    · have hk : ¬(k = k') := fun hc => hne hc.symm
      have hp' : ¬(p.1 = k') := by rw [hp]; exact hk
      simp only [List.map_cons, if_pos hp, lookup_cons, if_neg hk, if_neg hp']
      exact ih
    · simp only [List.map_cons, if_neg hp, lookup_cons]
      split_ifs with hq
      · rfl
      · exact ih

theorem lookup_append_new (k : String) (v : Value) :
    ∀ r : Record, (∀ p ∈ r, ¬p.1 = k) →
    lookup (r ++ [(k, v)]) k = some v := by
  intro r
  induction r with
  | nil => intro _; simp [lookup_cons]
  | cons p rs ih =>
    intro h
    have hp : ¬p.1 = k := h p (by simp)
    simp only [List.cons_append, lookup_cons, if_neg hp]
    exact ih (fun q hq => h q (by simp [hq]))

theorem lookup_append_ne (k k' : String) (v : Value) (hne : k' ≠ k) :
    ∀ r : Record, lookup (r ++ [(k, v)]) k' = lookup r k' := by
  intro r
  induction r with
  | nil =>
    have hk : ¬(k = k') := fun hc => hne hc.symm
    simp [lookup_cons, hk, lookup_nil]
  | cons p rs ih =>
    simp only [List.cons_append, lookup_cons]
    split_ifs with hq
    · rfl
    · exact ih

theorem lookup_dictInsert (r : Record) (k : String) (v : Value) :
    lookup (dictInsert r k v) k = some v := by
  unfold dictInsert
  split_ifs with h
  · refine lookup_map_overwrite k v r ?_
    obtain ⟨p, hp, hpk⟩ := List.any_eq_true.mp h
    exact ⟨p, hp, by simpa using hpk⟩
  · refine lookup_append_new k v r ?_
    intro p hp hpk
    exact h (List.any_eq_true.mpr ⟨p, hp, by simpa using hpk⟩)

theorem lookup_dictInsert_ne (r : Record) (k k' : String) (v : Value)
    (hne : k' ≠ k) : lookup (dictInsert r k v) k' = lookup r k' := by
  unfold dictInsert
  split_ifs with h
  · exact lookup_map_overwrite_ne k k' v hne r
  · exact lookup_append_ne k k' v hne r

/-- **C6.** For every batch and every field `f` that every Record of the
batch maps to a string, after `derive_length(batch, f)` the batch has
one output record per input record (the derivation is applied to every
element, no exceptions), and every output record `r` has a field
`f ++ "_length"` whose value is the length of `r`'s (unchanged) value at
`f`. -/
theorem add_length_spec (data : List Record) (key : String)
    (h : ∀ r ∈ data, (lookup r key).map Value.isStr = some true) :
    ∃ out, add_length data key = some out ∧
      List.Forall₂ (fun r r' =>
        ∃ s, lookup r key = some (.str s) ∧ lookup r' key = some (.str s) ∧
          lookup r' (key ++ "_length") = some (.int (s.length : Int))) data out := by
  induction data with
  | nil => exact ⟨[], rfl, List.Forall₂.nil⟩
  | cons r rs ih =>
    obtain ⟨v, hv, hstr⟩ : ∃ v, lookup r key = some v ∧ v.isStr = true := by
      have := h r (by simp)
      cases hl : lookup r key with
      | none => rw [hl] at this; simp at this
      | some v => rw [hl] at this; simp at this; exact ⟨v, rfl, this⟩
    obtain ⟨s, rfl⟩ : ∃ s, v = .str s := by
      cases v with
      | str s => exact ⟨s, rfl⟩
      | null => simp [Value.isStr] at hstr
      | int n => simp [Value.isStr] at hstr
    obtain ⟨out, hout, hrel⟩ := ih (fun r hr => h r (by simp [hr]))
    refine ⟨dictInsert r (key ++ "_length") (.int (s.length : Int)) :: out, ?_, ?_⟩
    · simp [add_length, hv, vlen, hout]
    · refine List.Forall₂.cons ⟨s, hv, ?_, lookup_dictInsert _ _ _⟩ hrel
      rw [lookup_dictInsert_ne _ _ _ _ (key_ne_append_length key)]
      exact hv

/-- Witness for C6 at the spec's example batch. -/
theorem add_length_spec_witness :
    ∃ out,
      add_length
        [[("id", Value.int 100), ("title", Value.str "Post 100")],
         [("id", Value.int 103), ("title", Value.str "Post")]] "title" = some out ∧
      List.Forall₂ (fun r r' =>
        ∃ s, lookup r "title" = some (.str s) ∧ lookup r' "title" = some (.str s) ∧
          lookup r' ("title" ++ "_length") = some (.int (s.length : Int)))
        [[("id", Value.int 100), ("title", Value.str "Post 100")],
         [("id", Value.int 103), ("title", Value.str "Post")]] out :=
  add_length_spec
    [[("id", Value.int 100), ("title", Value.str "Post 100")],
     [("id", Value.int 103), ("title", Value.str "Post")]] "title"
    (by decide)

/-- **C7.** For every batch in which every Record's `length_field` holds
an integer and every threshold `m`, `filter_min_length` returns exactly
the subsequence of Records whose value at `length_field` is `>= m`
(a `List.filter`, hence order-preserving), and the result is no longer
than the batch. -/
theorem filter_data_spec (data : List Record) (key : String) (m : Int)
    (h : ∀ r ∈ data, (lookup r key).map Value.isInt = some true) :
    filter_data data key m = some (data.filter (passesMin key m)) ∧
      (data.filter (passesMin key m)).length ≤ data.length := by
  refine ⟨?_, List.length_filter_le _ _⟩
  induction data with
  | nil => rfl
  | cons r rs ih =>
    obtain ⟨n, hn⟩ : ∃ n, lookup r key = some (.int n) := by
      have := h r (by simp)
      cases hl : lookup r key with
      | none => rw [hl] at this; simp at this
      | some v =>
        rw [hl] at this; simp at this
        cases v with
        | int n => exact ⟨n, rfl⟩
        | null => simp [Value.isInt] at this
        | str s => simp [Value.isInt] at this
    have ihr := ih (fun r hr => h r (by simp [hr]))
    by_cases hm : m ≤ n
    · simp [filter_data, hn, hm, ihr, List.filter_cons, passesMin]
    · simp [filter_data, hn, hm, ihr, List.filter_cons, passesMin]

/-- Witness for C7 at the spec's example (threshold 5 keeps only the
record with derived length 8). -/
theorem filter_data_spec_witness :
    filter_data
      [[("id", Value.int 100), ("title_length", Value.int 8)],
       [("id", Value.int 103), ("title_length", Value.int 4)]] "title_length" 5 =
      some (List.filter (passesMin "title_length" 5)
        [[("id", Value.int 100), ("title_length", Value.int 8)],
         [("id", Value.int 103), ("title_length", Value.int 4)]]) ∧
      (List.filter (passesMin "title_length" 5)
        [[("id", Value.int 100), ("title_length", Value.int 8)],
         [("id", Value.int 103), ("title_length", Value.int 4)]]).length ≤
      (2 : Nat) :=
  filter_data_spec
    [[("id", Value.int 100), ("title_length", Value.int 8)],
     [("id", Value.int 103), ("title_length", Value.int 4)]] "title_length" 5
    (by decide)

/-- **C8.** For every batch containing some Record that lacks the field
the transform stage is given, the transform fails for the whole batch
rather than skipping the Record: `add_length` fails (Python `KeyError`)
and `filter_data` fails rather than excluding the Record (`None >= m` is
a `TypeError`). -/
theorem missing_field_fatal (data : List Record) (key : String) (m : Int)
    (h : ∃ r ∈ data, lookup r key = none) :
    add_length data key = none ∧ filter_data data key m = none := by
  induction data with
  | nil => simp at h
  | cons r rs ih =>
    rcases h with ⟨w, hw, hlook⟩
    rcases List.mem_cons.mp hw with rfl | htail
    · constructor
      · simp only [add_length, hlook, Option.bind_eq_bind, Option.none_bind]
      · simp only [filter_data, hlook]
    · have ⟨ha, hf⟩ := ih ⟨w, htail, hlook⟩
      constructor
      · cases hl : lookup r key with
        | none => simp only [add_length, hl, Option.bind_eq_bind, Option.none_bind]
        | some v =>
          cases hv : vlen v with
          | none => simp only [add_length, hl, hv, Option.bind_eq_bind, Option.some_bind,
              Option.none_bind]
          | some n => simp only [add_length, hl, hv, ha, Option.bind_eq_bind,
              Option.some_bind, Option.none_bind]
      · cases hl : lookup r key with
        | none => simp only [filter_data, hl]
        | some v =>
          cases v with
          | int n =>
            simp only [filter_data, hl, hf]
            split_ifs <;> rfl
          | null => simp only [filter_data, hl]
          | str s => simp only [filter_data, hl]

/-- Witness for C8: a one-record batch lacking the requested field makes
both transforms fail. -/
theorem missing_field_fatal_witness :
    add_length [[("a", Value.int 1)]] "b" = none ∧
      filter_data [[("a", Value.int 1)]] "b" 0 = none :=
  missing_field_fatal [[("a", Value.int 1)]] "b" 0 (by decide)

/-! ## Lemmas about the Upsert Writer

The keyed-upsert algebra: `applyAll` (the row effects of one
`executemany`) is characterised in closed form over tables whose `id`
column is duplicate-free, which yields idempotence of a replayed
batch. -/

theorem ids_nil : ids [] = [] := rfl

theorem ids_cons (u : Row) (S : List Row) : ids (u :: S) = u.id :: ids S := rfl

theorem ids_append (S T : List Row) : ids (S ++ T) = ids S ++ ids T :=
  List.map_append _ _ _

theorem upsertRow_of_not_mem (t : Row) :
    ∀ S : List Row, t.id ∉ ids S → upsertRow t S = S ++ [t] := by
  intro S
  induction S with
  | nil => intro _; rfl
  | cons u us ih =>
    intro h
    rw [ids_cons, List.mem_cons] at h
    push_neg at h
    have hu : ¬u.id = t.id := fun hc => h.1 hc.symm
    simp only [upsertRow, if_neg hu, List.cons_append]
    rw [ih h.2]

theorem upsertRow_of_mem (t : Row) :
    ∀ S : List Row, (ids S).Nodup → t.id ∈ ids S →
    upsertRow t S = S.map (fun u => if u.id = t.id then t else u) := by
  intro S
  induction S with
  | nil => intro _ h; simp [ids] at h
  | cons u us ih =>
    intro hnd hmem
    rw [ids_cons, List.nodup_cons] at hnd
    by_cases hu : u.id = t.id
    · have hus : us.map (fun w => if w.id = t.id then t else w) = us := by
        have : ∀ w ∈ us, (if w.id = t.id then t else w) = w := by
          intro w hw
          have hwid : w.id ∈ ids us := List.mem_map_of_mem Row.id hw
          have : ¬w.id = t.id := by
            intro hc
            exact hnd.1 (by rw [hu, ← hc]; exact hwid)
          rw [if_neg this]
        rw [List.map_congr_left this, List.map_id']
      simp only [upsertRow, if_pos hu, List.map_cons, hus]
    · have hmem' : t.id ∈ ids us := by
        rw [ids_cons, List.mem_cons] at hmem
        rcases hmem with h | h
        · exact absurd h.symm hu
        · exact h
      simp only [upsertRow, if_neg hu, List.map_cons, if_neg hu, ih hnd.2 hmem']

theorem mem_ids_upsertRow_self (t : Row) : ∀ S : List Row, t.id ∈ ids (upsertRow t S) := by
  intro S
  induction S with
  | nil => simp [upsertRow, ids]
  | cons u us ih =>
    by_cases hu : u.id = t.id
    · simp [upsertRow, if_pos hu, ids_cons]
    · simp only [upsertRow, if_neg hu, ids_cons, List.mem_cons]
      exact Or.inr ih

theorem mem_ids_upsertRow_of_mem (t : Row) (x : Value) :
    ∀ S : List Row, x ∈ ids S → x ∈ ids (upsertRow t S) := by
  intro S
  induction S with
  | nil => intro h; simp [ids] at h
  | cons u us ih =>
    intro h
    rw [ids_cons, List.mem_cons] at h
    by_cases hu : u.id = t.id
    · simp only [upsertRow, if_pos hu, ids_cons, List.mem_cons]
      rcases h with h | h
      · exact Or.inl (by rw [h, hu])
      · exact Or.inr h
    · simp only [upsertRow, if_neg hu, ids_cons, List.mem_cons]
      rcases h with h | h
      · exact Or.inl h
      · exact Or.inr (ih h)

theorem mem_ids_applyAll_of_mem (x : Value) :
    ∀ (ts : List Row) (S : List Row), x ∈ ids S → x ∈ ids (applyAll S ts) := by
  intro ts
  induction ts with
  | nil => intro S h; exact h
  | cons t ts ih =>
    intro S h
    exact ih (upsertRow t S) (mem_ids_upsertRow_of_mem t x S h)

theorem id_mem_applyAll (t : Row) :
    ∀ (ts : List Row) (S : List Row), t ∈ ts → t.id ∈ ids (applyAll S ts) := by
  intro ts
  induction ts with
  | nil => intro S h; simp at h
  | cons q ts ih =>
    intro S h
    rcases List.mem_cons.mp h with rfl | h
    · exact mem_ids_applyAll_of_mem t.id ts _ (mem_ids_upsertRow_self t S)
    · exact ih _ h

theorem lastRec_id : ∀ (rs : List Row) (v : Value) (w : Row),
    lastRec rs v = some w → w.id = v := by
  intro rs
  induction rs with
  | nil => intro v w h; simp [lastRec] at h
  | cons t ts ih =>
    intro v w h
    rw [lastRec] at h
    cases hl : lastRec ts v with
    | some u =>
      rw [hl] at h
      injection h with h2
      subst h2
      exact ih v u hl
    | none =>
      rw [hl] at h
      split_ifs at h with ht
      injection h with h2
      subst h2
      exact ht

theorem lastPatch_id (rs : List Row) (u : Row) : (lastPatch rs u).id = u.id := by
  unfold lastPatch
  cases hl : lastRec rs u.id with
  | none => rfl
  | some w => exact lastRec_id rs u.id w hl

theorem lastPatch_idem (rs : List Row) (u : Row) :
    lastPatch rs (lastPatch rs u) = lastPatch rs u := by
  unfold lastPatch
  cases hl : lastRec rs u.id with
  | none => simp [hl]
  | some w =>
    have hw : w.id = u.id := lastRec_id rs u.id w hl
    simp [hw, hl]

theorem ids_map_lastPatch (rs : List Row) (S : List Row) :
    ids (S.map (lastPatch rs)) = ids S := by
  unfold ids
  rw [List.map_map]
  exact List.map_congr_left (fun u _ => lastPatch_id rs u)

theorem map_lastPatch_nil (S : List Row) : S.map (lastPatch []) = S := by
  have : ∀ u ∈ S, lastPatch [] u = u := by
    intro u _
    rfl
  rw [List.map_congr_left this, List.map_id']

theorem newRows_congr : ∀ (rs : List Row) (vs vs' : List Value),
    (∀ x, x ∈ vs ↔ x ∈ vs') → newRows rs vs = newRows rs vs' := by
  intro rs
  induction rs with
  | nil => intro vs vs' _; rfl
  | cons t rest ih =>
    intro vs vs' hiff
    by_cases h : t.id ∈ vs
    · have h' : t.id ∈ vs' := (hiff _).mp h
      simp only [newRows, if_pos h, if_pos h']
      exact ih vs vs' hiff
    · have h' : t.id ∉ vs' := fun hc => h ((hiff _).mpr hc)
      simp only [newRows, if_neg h, if_neg h']
      rw [ih (t.id :: vs) (t.id :: vs') (by intro x; simp [hiff x])]

theorem newRows_spec : ∀ (rs : List Row) (vs : List Value) (r : Row),
    r ∈ newRows rs vs → r.id ∉ vs ∧ lastRec rs r.id = some r := by
  intro rs
  induction rs with
  | nil => intro vs r h; simp [newRows] at h
  | cons t rest ih =>
    intro vs r hmem
    by_cases h : t.id ∈ vs
    · rw [newRows, if_pos h] at hmem
      obtain ⟨hnv, hlast⟩ := ih vs r hmem
      refine ⟨hnv, ?_⟩
      rw [lastRec, hlast]
    · rw [newRows, if_neg h] at hmem
      rcases List.mem_cons.mp hmem with rfl | hmem'
      · refine ⟨by rw [lastPatch_id]; exact h, ?_⟩
        rw [lastPatch_id]
        rw [lastRec]
        unfold lastPatch
        cases hl : lastRec rest t.id with
        | some w => rfl
        | none => simp
      · obtain ⟨hnv, hlast⟩ := ih (t.id :: vs) r hmem'
        rw [List.mem_cons] at hnv
        push_neg at hnv
        refine ⟨hnv.2, ?_⟩
        rw [lastRec, hlast]

theorem newRows_ids_nodup : ∀ (rs : List Row) (vs : List Value),
    (ids (newRows rs vs)).Nodup := by
  intro rs
  induction rs with
  | nil => intro vs; simp [newRows, ids]
  | cons t rest ih =>
    intro vs
    by_cases h : t.id ∈ vs
    · rw [newRows, if_pos h]
      exact ih vs
    · rw [newRows, if_neg h, ids_cons, List.nodup_cons]
      refine ⟨?_, ih _⟩
      intro hc
      obtain ⟨r, hr, hrid⟩ := List.mem_map.mp hc
      obtain ⟨hnv, _⟩ := newRows_spec rest (t.id :: vs) r hr
      rw [lastPatch_id] at hrid
      exact hnv (by rw [hrid]; exact List.mem_cons_self _ _)

theorem newRows_eq_nil : ∀ (rs : List Row) (vs : List Value),
    (∀ t ∈ rs, t.id ∈ vs) → newRows rs vs = [] := by
  intro rs
  induction rs with
  | nil => intro vs _; rfl
  | cons t rest ih =>
    intro vs h
    rw [newRows, if_pos (h t (by simp))]
    exact ih vs (fun q hq => h q (by simp [hq]))

theorem mem_vs_or_newRows : ∀ (rs : List Row) (vs : List Value) (t : Row),
    t ∈ rs → t.id ∈ vs ∨ t.id ∈ ids (newRows rs vs) := by
  intro rs
  induction rs with
  | nil => intro vs t h; simp at h
  | cons q rest ih =>
    intro vs t hmem
    by_cases h : q.id ∈ vs
    · rw [newRows, if_pos h]
      rcases List.mem_cons.mp hmem with rfl | hmem'
      · exact Or.inl h
      · exact ih vs t hmem'
    · rw [newRows, if_neg h, ids_cons]
      rcases List.mem_cons.mp hmem with rfl | hmem'
      · exact Or.inr (by rw [lastPatch_id]; exact List.mem_cons_self _ _)
      · rcases ih (q.id :: vs) t hmem' with hv | hn
        · rcases List.mem_cons.mp hv with he | hv'
          · exact Or.inr (by rw [lastPatch_id, he]; exact List.mem_cons_self _ _)
          · exact Or.inl hv'
        · exact Or.inr (by rw [lastPatch_id]; exact List.mem_cons.mpr (Or.inr hn))

theorem lastPatch_cons_eq (t : Row) (rest : List Row) (u : Row) (hu : u.id = t.id) :
    lastPatch (t :: rest) u = lastPatch rest t := by
  unfold lastPatch
  rw [hu, lastRec]
  cases hl : lastRec rest t.id with
  | some w => rfl
  | none => simp

theorem lastPatch_cons_ne (t : Row) (rest : List Row) (u : Row) (hu : ¬u.id = t.id) :
    lastPatch (t :: rest) u = lastPatch rest u := by
  unfold lastPatch
  rw [lastRec]
  cases hl : lastRec rest u.id with
  | some w => rfl
  | none =>
    have h2 : ¬t.id = u.id := fun hc => hu hc.symm
    simp [h2]

theorem applyAll_closed : ∀ (rs : List Row) (S : List Row), (ids S).Nodup →
    applyAll S rs = S.map (lastPatch rs) ++ newRows rs (ids S) := by
  intro rs
  induction rs with
  | nil =>
    intro S _
    show S = S.map (lastPatch []) ++ newRows [] (ids S)
    rw [map_lastPatch_nil, newRows, List.append_nil]
  | cons t rest ih =>
    intro S hnd
    show applyAll (upsertRow t S) rest = _
    by_cases ht : t.id ∈ ids S
    · rw [upsertRow_of_mem t S hnd ht]
      have hids' : ids (S.map (fun u => if u.id = t.id then t else u)) = ids S := by
        unfold ids
        rw [List.map_map]
        refine List.map_congr_left ?_
        intro u _
        by_cases h : u.id = t.id
        · simp [Function.comp, h]
        · simp [Function.comp, h]
      rw [ih _ (by rw [hids']; exact hnd), hids']
      congr 1
      · rw [List.map_map]
        refine List.map_congr_left ?_
        intro u _
        simp only [Function.comp_apply]
        by_cases h : u.id = t.id
        · rw [if_pos h, lastPatch_cons_eq t rest u h]
        · rw [if_neg h, lastPatch_cons_ne t rest u h]
      · rw [newRows, if_pos ht]
    · rw [upsertRow_of_not_mem t S ht]
      have hids' : ids (S ++ [t]) = ids S ++ [t.id] := by rw [ids_append]; rfl
      have hnd' : (ids (S ++ [t])).Nodup := by
        rw [hids']
        refine List.Nodup.append hnd (List.nodup_singleton _) ?_
        intro x hx hx'
        rw [List.mem_singleton] at hx'
        exact ht (hx' ▸ hx)
      rw [ih _ hnd', List.map_append, hids']
      rw [newRows, if_neg ht]
      have hmapS : S.map (lastPatch rest) = S.map (lastPatch (t :: rest)) := by
        refine List.map_congr_left ?_
        intro u hu
        have h2 : ¬u.id = t.id := by
          intro hc
          exact ht (hc ▸ List.mem_map_of_mem Row.id hu)
        rw [lastPatch_cons_ne t rest u h2]
      have hnr : newRows rest (ids S ++ [t.id]) = newRows rest (t.id :: ids S) := by
        refine newRows_congr rest _ _ ?_
        intro x
        rw [List.mem_append, List.mem_singleton, List.mem_cons]
        tauto
      rw [hmapS, hnr]
      simp [List.append_assoc]

theorem applyAll_idem (rs : List Row) (S : List Row) (hnd : (ids S).Nodup) :
    applyAll (applyAll S rs) rs = applyAll S rs := by
  have hM := applyAll_closed rs S hnd
  have hidsM : ids (applyAll S rs) = ids S ++ ids (newRows rs (ids S)) := by
    rw [hM, ids_append, ids_map_lastPatch]
  have hdisj : List.Disjoint (ids S) (ids (newRows rs (ids S))) := by
    intro x hx hx'
    obtain ⟨r, hr, hrid⟩ := List.mem_map.mp hx'
    obtain ⟨hnv, _⟩ := newRows_spec rs (ids S) r hr
    exact hnv (hrid ▸ hx)
  have hndM : (ids (applyAll S rs)).Nodup := by
    rw [hidsM]
    exact hnd.append (newRows_ids_nodup rs (ids S)) hdisj
  rw [applyAll_closed rs (applyAll S rs) hndM]
  have hnil : newRows rs (ids (applyAll S rs)) = [] := by
    refine newRows_eq_nil rs _ ?_
    intro t htmem
    rw [hidsM, List.mem_append]
    exact mem_vs_or_newRows rs (ids S) t htmem
  rw [hnil, List.append_nil]
  rw [hM, List.map_append, List.map_map]
  congr 1
  · refine List.map_congr_left ?_
    intro u _
    simp only [Function.comp_apply]
    exact lastPatch_idem rs u
  · have hfix : ∀ r ∈ newRows rs (ids S), lastPatch rs r = r := by
      intro r hr
      obtain ⟨_, hlast⟩ := newRows_spec rs (ids S) r hr
      unfold lastPatch
      rw [hlast]
      rfl
    rw [List.map_congr_left hfix, List.map_id']

theorem runRows_of_all : ∀ (vls : List (List Value)) (rows : List Row),
    (∀ v ∈ vls, rowOk v = true) →
    runRows rows vls = .ok (applyAll rows (vls.map mkRowD)) := by
  intro vls
  induction vls with
  | nil => intro rows _; rfl
  | cons v rest ih =>
    intro rows hall
    have hv : rowOk v = true := hall v (by simp)
    rw [rowOk, Bool.and_eq_true] at hv
    have hlen : ¬v.length ≠ tableColumns.length := by
      have := hv.1
      rw [beq_iff_eq] at this
      exact fun hc => hc this
    have hnn : ¬notNullOk (mkRowD v) = false := by
      rw [hv.2]
      simp
    rw [runRows, if_neg hlen, if_neg hnn, List.map_cons]
    exact ih (upsertRow (mkRowD v) rows) (fun q hq => hall q (by simp [hq]))

theorem runRows_ok_all : ∀ (vls : List (List Value)) (rows : List Row) (R : List Row),
    runRows rows vls = .ok R → ∀ v ∈ vls, rowOk v = true := by
  intro vls
  induction vls with
  | nil => intro rows R _ v hv; simp at hv
  | cons v rest ih =>
    intro rows R h q hq
    rw [runRows] at h
    split_ifs at h with h1 h2
    have hlen : v.length == tableColumns.length := by
      rw [beq_iff_eq]
      exact Decidable.not_not.mp h1
    have hnn : notNullOk (mkRowD v) = true := by
      cases hb : notNullOk (mkRowD v) with
      | false => exact absurd hb h2
      | true => rfl
    rcases List.mem_cons.mp hq with rfl | hq'
    · rw [rowOk, Bool.and_eq_true]
      exact ⟨hlen, hnn⟩
    · exact ih _ R h q hq'

theorem ensuredTable_some (t : Table) : ensuredTable (some t) = t := rfl

/-- **C10.** For the empty batch, `upsert_data` fails with an error
(`data[0]` raises `IndexError`) while reading the first Record's keys,
before any database connection is opened, so no table is created and no
existing table is modified: the database state is returned untouched
with the connection never opened. -/
theorem upsert_data_empty_batch (db : Option Table) (mc : String) :
    upsert_data db [] mc =
      { result := .error .indexError, db := db,
        connOpened := false, connClosed := false } := rfl

/-- **C9 (corrected).** Every non-empty `upsert_data` call opens its own
connection, but the connection is explicitly closed only on the success
path (after the commit): when the call exits with a storage error the
`except` branch re-raises without closing. -/
theorem upsert_data_connection_lifecycle (db : Option Table) (data : List Record)
    (mc : String) (h : data ≠ []) :
    (upsert_data db data mc).connOpened = true ∧
    ((upsert_data db data mc).connClosed = true ↔
      (upsert_data db data mc).result = .ok ()) := by
  cases data with
  | nil => exact absurd rfl h
  | cons first rest =>
    simp only [upsert_data]
    split_ifs with h1 h2 h3
    · simp
    · simp
    · simp
    · cases hrun : runRows (ensuredTable db).rows ((first :: rest).map recordValues) with
      | error e => simp
      | ok R => simp

/-- Counterexample to C9 as stated: a call that exits with a storage
error (one key against a four-column table) opened the connection and
did not close it. -/
theorem upsert_data_conn_leak_cex :
    (upsert_data none [[("id", Value.int 1)]] "id").connOpened = true ∧
    (upsert_data none [[("id", Value.int 1)]] "id").connClosed = false ∧
    (upsert_data none [[("id", Value.int 1)]] "id").result ≠ .ok () := by
  decide

/-- Witness for C9 (corrected) at a successful concrete call. -/
theorem upsert_data_connection_lifecycle_witness :
    (upsert_data none
      [[("id", Value.int 1), ("title", Value.str "a"),
        ("body", Value.null), ("title_length", Value.int 1)]] "id").connOpened = true ∧
    ((upsert_data none
      [[("id", Value.int 1), ("title", Value.str "a"),
        ("body", Value.null), ("title_length", Value.int 1)]] "id").connClosed = true ↔
      (upsert_data none
      [[("id", Value.int 1), ("title", Value.str "a"),
        ("body", Value.null), ("title_length", Value.int 1)]] "id").result = .ok ()) :=
  upsert_data_connection_lifecycle none
    [[("id", Value.int 1), ("title", Value.str "a"),
      ("body", Value.null), ("title_length", Value.int 1)]] "id"
    (List.cons_ne_nil _ _)

/-- **C2 (corrected).** For every non-empty batch, either the whole
batch is applied and committed (on success every record's key value has
a row in the final table), or a persistence-layer error is surfaced and
no row write is visible: the visible state is exactly the pre-call
state with only the autocommitted `CREATE TABLE IF NOT EXISTS` applied
(in particular, an already-existing table is returned exactly as it
was, but a table created during the failing call remains, empty). -/
theorem upsert_data_no_partial_writes (db : Option Table) (data : List Record)
    (mc : String) (h : data ≠ []) :
    (∀ e, (upsert_data db data mc).result = .error e →
      (upsert_data db data mc).db = some (ensuredTable db)) ∧
    ((upsert_data db data mc).result = .ok () →
      ∃ R, (upsert_data db data mc).db = some { ensuredTable db with rows := R } ∧
        ∀ r ∈ data, (mkRowD (recordValues r)).id ∈ ids R) := by
  cases data with
  | nil => exact absurd rfl h
  | cons first rest =>
    simp only [upsert_data]
    split_ifs with h1 h2 h3
    · exact ⟨fun e _ => rfl, by simp⟩
    · exact ⟨fun e _ => rfl, by simp⟩
    · exact ⟨fun e _ => rfl, by simp⟩
    · cases hrun : runRows (ensuredTable db).rows ((first :: rest).map recordValues) with
      | error e => exact ⟨fun e _ => rfl, by simp⟩
      | ok R =>
        refine ⟨by simp, fun _ => ⟨R, rfl, ?_⟩⟩
        intro r hr
        have hall := runRows_ok_all _ _ _ hrun
        have hR : R = applyAll (ensuredTable db).rows
            (((first :: rest).map recordValues).map mkRowD) := by
          have h4 := runRows_of_all _ (ensuredTable db).rows hall
          rw [hrun] at h4
          injection h4 with h5
        rw [hR]
        refine id_mem_applyAll _ _ _ ?_
        exact List.mem_map.mpr ⟨recordValues r, List.mem_map.mpr ⟨r, hr, rfl⟩, rfl⟩

/-- Counterexample to C2 as stated: a persistence error (two keys
against a four-column table) surfaces, yet the destination table is not
in its pre-call state — it did not exist before the call and exists
(empty) afterwards, because the DDL autocommitted before the failed
transaction. -/
theorem upsert_data_error_table_created_cex :
    (upsert_data none [[("id", Value.int 1), ("title", Value.str "a")]] "id").result =
      .error (.sql .prepareArity) ∧
    (upsert_data none [[("id", Value.int 1), ("title", Value.str "a")]] "id").db ≠
      none := by
  decide

/-- Witness for C2 (corrected) at a successful concrete call. -/
theorem upsert_data_no_partial_writes_witness :
    (∀ e, (upsert_data none
        [[("id", Value.int 2), ("title", Value.str "b"),
          ("body", Value.null), ("title_length", Value.int 1)]] "id").result = .error e →
      (upsert_data none
        [[("id", Value.int 2), ("title", Value.str "b"),
          ("body", Value.null), ("title_length", Value.int 1)]] "id").db =
        some (ensuredTable none)) ∧
    ((upsert_data none
        [[("id", Value.int 2), ("title", Value.str "b"),
          ("body", Value.null), ("title_length", Value.int 1)]] "id").result = .ok () →
      ∃ R, (upsert_data none
        [[("id", Value.int 2), ("title", Value.str "b"),
          ("body", Value.null), ("title_length", Value.int 1)]] "id").db =
          some { ensuredTable none with rows := R } ∧
        ∀ r ∈ [[("id", Value.int 2), ("title", Value.str "b"),
          ("body", Value.null), ("title_length", Value.int 1)]],
          (mkRowD (recordValues r)).id ∈ ids R) :=
  upsert_data_no_partial_writes none
    [[("id", Value.int 2), ("title", Value.str "b"),
      ("body", Value.null), ("title_length", Value.int 1)]] "id"
    (List.cons_ne_nil _ _)

/-- **C3 (corrected).** For every non-empty batch, when the destination
table does not exist, `upsert_data` creates it with the fixed,
hardcoded column list `id, title, body, title_length` of
`create_table_if_not_exists` — independent of the batch.  (Only the
placeholder count and the update SET list of the upsert statement are
derived from the first Record's keys.) -/
theorem upsert_data_fixed_schema (db : Option Table) (data : List Record)
    (mc : String) (hne : data ≠ []) (habs : db = none) :
    ∃ t, (upsert_data db data mc).db = some t ∧ t.cols = tableColumns := by
  subst habs
  cases data with
  | nil => exact absurd rfl hne
  | cons first rest =>
    simp only [upsert_data]
    split_ifs with h1 h2 h3
    · exact ⟨ensuredTable none, rfl, rfl⟩
    · exact ⟨ensuredTable none, rfl, rfl⟩
    · exact ⟨ensuredTable none, rfl, rfl⟩
    · cases hrun : runRows (ensuredTable none).rows ((first :: rest).map recordValues) with
      | error e => exact ⟨ensuredTable none, rfl, rfl⟩
      | ok R => exact ⟨{ ensuredTable none with rows := R }, rfl, rfl⟩

/-- Counterexample to C3 as stated: with batch `[{"foo": 1}]` and no
existing table, the created table's column list is the hardcoded
`id, title, body, title_length`, not the first Record's keys
(`["foo"]`). -/
theorem upsert_data_schema_not_from_batch_cex :
    (upsert_data none [[("foo", Value.int 1)]] "id").db =
      some { cols := tableColumns, rows := [] } ∧
    tableColumns ≠ recordKeys [("foo", Value.int 1)] := by
  decide

/-- Witness for C3 (corrected) at a concrete call on an absent table. -/
theorem upsert_data_fixed_schema_witness :
    ∃ t, (upsert_data none [[("foo", Value.int 1)]] "id").db = some t ∧
      t.cols = tableColumns :=
  upsert_data_fixed_schema none [[("foo", Value.int 1)]] "id"
    (List.cons_ne_nil _ _) rfl

/-- **C5.** Upsert is idempotent: for every non-empty batch (over a
destination table whose unique-key column is duplicate-free, as the
`id` PRIMARY KEY guarantees), calling `upsert_data` twice in succession
with the identical batch leaves the destination table in the same state
as calling it once — no duplicate rows and no differing column
values. -/
theorem upsert_data_eq_prepareArity (db : Option Table) (first : Record)
    (rest : List Record) (mc : String)
    (h1 : (recordKeys first).length ≠ (ensuredTable db).cols.length) :
    upsert_data db (first :: rest) mc =
      { result := .error (.sql .prepareArity), db := some (ensuredTable db),
        connOpened := true, connClosed := false } := by
  simp only [upsert_data]
  rw [if_pos h1]

theorem upsert_data_eq_noSuchColumn (db : Option Table) (first : Record)
    (rest : List Record) (mc : String)
    (h1 : ¬(recordKeys first).length ≠ (ensuredTable db).cols.length)
    (h2 : (((recordKeys first).filter (fun c => c ≠ mc)).all
      (fun c => (ensuredTable db).cols.contains c)) = false) :
    upsert_data db (first :: rest) mc =
      { result := .error (.sql .noSuchColumn), db := some (ensuredTable db),
        connOpened := true, connClosed := false } := by
  simp only [upsert_data]
  rw [if_neg h1, if_pos h2]

theorem upsert_data_eq_badConflictTarget (db : Option Table) (first : Record)
    (rest : List Record) (mc : String)
    (h1 : ¬(recordKeys first).length ≠ (ensuredTable db).cols.length)
    (h2 : ¬(((recordKeys first).filter (fun c => c ≠ mc)).all
      (fun c => (ensuredTable db).cols.contains c)) = false)
    (h3 : mc ≠ primaryKey) :
    upsert_data db (first :: rest) mc =
      { result := .error (.sql .badConflictTarget), db := some (ensuredTable db),
        connOpened := true, connClosed := false } := by
  simp only [upsert_data]
  rw [if_neg h1, if_neg h2, if_pos h3]

theorem upsert_data_eq_runError (db : Option Table) (first : Record)
    (rest : List Record) (mc : String)
    (h1 : ¬(recordKeys first).length ≠ (ensuredTable db).cols.length)
    (h2 : ¬(((recordKeys first).filter (fun c => c ≠ mc)).all
      (fun c => (ensuredTable db).cols.contains c)) = false)
    (h3 : ¬mc ≠ primaryKey) (e : SqlError)
    (hrun : runRows (ensuredTable db).rows ((first :: rest).map recordValues) =
      .error e) :
    upsert_data db (first :: rest) mc =
      { result := .error (.sql e), db := some (ensuredTable db),
        connOpened := true, connClosed := false } := by
  simp only [upsert_data]
  rw [if_neg h1, if_neg h2, if_neg h3, hrun]

theorem upsert_data_eq_runOk (db : Option Table) (first : Record)
    (rest : List Record) (mc : String)
    (h1 : ¬(recordKeys first).length ≠ (ensuredTable db).cols.length)
    (h2 : ¬(((recordKeys first).filter (fun c => c ≠ mc)).all
      (fun c => (ensuredTable db).cols.contains c)) = false)
    (h3 : ¬mc ≠ primaryKey) (R : List Row)
    (hrun : runRows (ensuredTable db).rows ((first :: rest).map recordValues) =
      .ok R) :
    upsert_data db (first :: rest) mc =
      { result := .ok (), db := some { ensuredTable db with rows := R },
        connOpened := true, connClosed := true } := by
  simp only [upsert_data]
  rw [if_neg h1, if_neg h2, if_neg h3, hrun]

theorem upsert_data_idempotent (db : Option Table) (data : List Record)
    (mc : String) (hkey : keyUnique db) (hne : data ≠ []) :
    (upsert_data (upsert_data db data mc).db data mc).db =
      (upsert_data db data mc).db := by
  cases data with
  | nil => exact absurd rfl hne
  | cons first rest =>
    have hnd : (ids (ensuredTable db).rows).Nodup := by
      cases db with
      | none => exact List.nodup_nil
      | some tb => exact hkey
    by_cases h1 : (recordKeys first).length ≠ (ensuredTable db).cols.length
    · rw [upsert_data_eq_prepareArity db first rest mc h1]
      show (upsert_data (some (ensuredTable db)) (first :: rest) mc).db =
        some (ensuredTable db)
      rw [upsert_data_eq_prepareArity (some (ensuredTable db)) first rest mc h1]
      rfl
    · by_cases h2 : (((recordKeys first).filter (fun c => c ≠ mc)).all
          (fun c => (ensuredTable db).cols.contains c)) = false
      · rw [upsert_data_eq_noSuchColumn db first rest mc h1 h2]
        show (upsert_data (some (ensuredTable db)) (first :: rest) mc).db =
          some (ensuredTable db)
        rw [upsert_data_eq_noSuchColumn (some (ensuredTable db)) first rest mc h1 h2]
        rfl
      · by_cases h3 : mc ≠ primaryKey
        · rw [upsert_data_eq_badConflictTarget db first rest mc h1 h2 h3]
          show (upsert_data (some (ensuredTable db)) (first :: rest) mc).db =
            some (ensuredTable db)
          rw [upsert_data_eq_badConflictTarget (some (ensuredTable db)) first rest mc
            h1 h2 h3]
          rfl
        · cases hrun : runRows (ensuredTable db).rows
              ((first :: rest).map recordValues) with
          | error e =>
            rw [upsert_data_eq_runError db first rest mc h1 h2 h3 e hrun]
            show (upsert_data (some (ensuredTable db)) (first :: rest) mc).db =
              some (ensuredTable db)
            rw [upsert_data_eq_runError (some (ensuredTable db)) first rest mc
              h1 h2 h3 e hrun]
            rfl
          | ok R =>
            have hall := runRows_ok_all _ _ _ hrun
            have hR : R = applyAll (ensuredTable db).rows
                (((first :: rest).map recordValues).map mkRowD) := by
              have h4 := runRows_of_all _ (ensuredTable db).rows hall
              rw [hrun] at h4
              injection h4 with h5
            have hrun2 : runRows R ((first :: rest).map recordValues) = .ok R := by
              rw [runRows_of_all _ R hall, hR, applyAll_idem _ _ hnd]
            rw [upsert_data_eq_runOk db first rest mc h1 h2 h3 R hrun]
            show (upsert_data (some ({ ensuredTable db with rows := R } : Table))
                (first :: rest) mc).db = some { ensuredTable db with rows := R }
            rw [upsert_data_eq_runOk (some ({ ensuredTable db with rows := R} : Table))
              first rest mc h1 h2 h3 R hrun2]
            rfl

/-- Witness for C5 at a concrete call on an absent table. -/
theorem upsert_data_idempotent_witness :
    (upsert_data
      (upsert_data none
        [[("id", Value.int 3), ("title", Value.str "c"),
          ("body", Value.null), ("title_length", Value.int 1)]] "id").db
      [[("id", Value.int 3), ("title", Value.str "c"),
        ("body", Value.null), ("title_length", Value.int 1)]] "id").db =
    (upsert_data none
      [[("id", Value.int 3), ("title", Value.str "c"),
        ("body", Value.null), ("title_length", Value.int 1)]] "id").db :=
  upsert_data_idempotent none
    [[("id", Value.int 3), ("title", Value.str "c"),
      ("body", Value.null), ("title_length", Value.int 1)]] "id"
    trivial (List.cons_ne_nil _ _)

end ApiPipeline
